import Mathlib

/-!
Verification of the mcp-file-preview server (`src/src/index.ts`).

The development shallowly embeds the two tool handlers of the server:
`handlePreviewFile` and `handleAnalyzeContent`, together with the pieces of
the Node.js standard library they use (`path.join`, `path.dirname`,
`path.basename`, `String.prototype.replace` with a string pattern,
`fs.existsSync`, `fs.readFileSync`, `fs.mkdirSync`) and the JavaScript
regular-expression matching semantics for the four fixed patterns of
`handleAnalyzeContent`.

External effects (puppeteer browser, pages, navigation, screenshots) are
modelled by an explicit `World` state threaded through the handlers and an
`Oracle` recording the outcome of each external call, so that every control
path of the source is represented.
-/

set_option maxRecDepth 10000

/-! ## Generic list helpers -/

/-- Drop the literal `pat` from the front of `s`; `none` if `pat` is not a
prefix of `s`. -/
def dropLit : List Char → List Char → Option (List Char)
  | [], s => some s
  | _ :: _, [] => none
  | p :: ps, c :: cs => if p = c then dropLit ps cs else none

/-- If `suf` is a suffix of `l`, return `l` with that suffix removed. -/
def stripSuffix (l suf : List Char) : Option (List Char) :=
  (dropLit suf.reverse l.reverse).map List.reverse

/-! ## Node `path` module (POSIX semantics), as used by the source -/

/-- Split a character list on `'/'`, keeping empty segments
(`splitSlash "a//b" = ["a", "", "b"]`). Never returns `[]`. -/
def splitSlash : List Char → List (List Char)
  | [] => [[]]
  | c :: rest =>
    if c = '/' then [] :: splitSlash rest
    else
      match splitSlash rest with
      | seg :: segs => (c :: seg) :: segs
      | [] => [[c]]

/-- Join segments with `'/'` separators. -/
def intercalateSlash : List (List Char) → List Char
  | [] => []
  | [s] => s
  | s :: rest => s ++ '/' :: intercalateSlash rest

/-- Segment processing of Node `path.normalize`: `""` and `"."` segments are
dropped, `".."` pops the previous segment (or is kept/dropped at the front of
a relative/absolute path).  The accumulator `stack` holds the processed
segments most-recent-first. -/
def normSegs (isAbs : Bool) : List (List Char) → List (List Char) → List (List Char)
  | stack, [] => stack.reverse
  | stack, seg :: rest =>
    if seg = [] ∨ seg = ['.'] then normSegs isAbs stack rest
    else if seg = ['.', '.'] then
      match stack with
      | top :: stk =>
        if top = ['.', '.'] then normSegs isAbs (seg :: top :: stk) rest
        else normSegs isAbs stk rest
      | [] => if isAbs then normSegs isAbs [] rest else normSegs isAbs [seg] rest
    else normSegs isAbs (seg :: stack) rest

/-- Render normalized segments back to a path string. -/
def renderParts (isAbs : Bool) (parts : List (List Char)) : List Char :=
  let core := intercalateSlash parts
  if isAbs then '/' :: core
  else if core = [] then ['.'] else core

/-- Node `path.join` (POSIX): non-empty parts are concatenated with `'/'` and
the result is normalized.  (Trailing-slash preservation of Node `normalize`
is omitted; no call site of the source produces a trailing slash.) -/
def joinList (parts : List String) : String :=
  match parts.filter (fun p => p ≠ "") with
  | [] => "."
  | ps =>
    let joined := intercalateSlash (ps.map String.toList)
    let isAbs : Bool := joined.head? = some '/'
    String.mk (renderParts isAbs (normSegs isAbs [] (splitSlash joined)))

def join2 (a b : String) : String := joinList [a, b]

def join3 (a b c : String) : String := joinList [a, b, c]

/-- Node `path.dirname` (POSIX): scan backwards past trailing slashes and the
final non-slash run; everything before the slash found there is the result,
with the special cases of the Node implementation (`end === -1`,
`hasRoot && end === 1`). -/
def dirname (p : String) : String :=
  let l := p.toList
  if l = [] then "."
  else
    let hasRoot := l.head? = some '/'
    let rev1 := l.reverse.dropWhile (fun c => c = '/')
    let rev2 := rev1.dropWhile (fun c => c ≠ '/')
    match rev2 with
    | [] => if hasRoot then "/" else "."
    | _ :: rest =>
      if rest = [] then "/"
      else if hasRoot ∧ rest.length = 1 then "//"
      else String.mk rest.reverse

/-- Node `path.basename` (POSIX, one-argument form): the final non-slash run,
ignoring trailing slashes. -/
def basenameStr (p : String) : String :=
  let rev := p.toList.reverse.dropWhile (fun c => c = '/')
  String.mk (rev.takeWhile (fun c => c ≠ '/')).reverse

/-- Node `path.basename(p, ext)`: as `basenameStr`, with the suffix `ext`
removed when it is a suffix of the basename and the basename is not `ext`
itself. -/
def basenameExt (p ext : String) : String :=
  let b := basenameStr p
  if b = ext then b
  else
    match stripSuffix b.toList ext.toList with
    | some pre => String.mk pre
    | none => b

/-- JavaScript `String.prototype.replace` with a string pattern: replace the
first occurrence of `pat` only (an empty pattern matches at position 0). -/
def replFirstAux (pat rep : List Char) : List Char → List Char
  | [] => []
  | c :: rest =>
    match dropLit pat (c :: rest) with
    | some after => rep ++ after
    | none => c :: replFirstAux pat rep rest

def jsReplaceFirst (s pat rep : String) : String :=
  match pat.toList with
  | [] => String.mk (rep.toList ++ s.toList)
  | _ :: _ => String.mk (replFirstAux pat.toList rep.toList s.toList)

/-! ## JavaScript regex semantics for the four fixed patterns

`handleAnalyzeContent` counts the `g`-flag matches of
`/<h[1-6][^>]*>.*?<\/h[1-6]>/g`, `/<p[^>]*>.*?<\/p>/g`, `/<img[^>]*>/g` and
`/<a[^>]*>.*?<\/a>/g`.  Each pattern is a sequence of literals, single
character classes, a greedy star over a class (`[^>]*`) and a lazy star over
a class (`.*?` — in JavaScript `.` matches everything except the four line
terminators).  A small backtracking engine in continuation-passing style
gives these patterns their exact JavaScript semantics. -/

/-- Character class `[1-6]`. -/
def isHDig (c : Char) : Bool := '1' ≤ c && c ≤ '6'

/-- Character class `[^>]`. -/
def isAttr (c : Char) : Bool := c != '>'

/-- JavaScript `.` without the `s` flag: any char except a line terminator. -/
def isDot (c : Char) : Bool :=
  c != '\n' && c != '\r' && c != '\u2028' && c != '\u2029'

/-- Regexes built from the constructs the four patterns use. -/
inductive RE where
  | lit (c : Char)
  | cls (p : Char → Bool)
  | seq (a b : RE)
  | star (p : Char → Bool)
  | lazyStar (p : Char → Bool)

/-- Greedy star over a character class, with backtracking into the
continuation `k`. -/
def greedyRun (p : Char → Bool) : List Char → (List Char → Option (List Char)) →
    Option (List Char)
  | [], k => k []
  | c :: rest, k =>
    if p c then
      match greedyRun p rest k with
      | some r => some r
      | none => k (c :: rest)
    else k (c :: rest)

/-- Lazy star over a character class: try the continuation first, then
consume one more class character. -/
def lazyRun (p : Char → Bool) : List Char → (List Char → Option (List Char)) →
    Option (List Char)
  | [], k => k []
  | c :: rest, k =>
    match k (c :: rest) with
    | some r => some r
    | none => if p c then lazyRun p rest k else none

/-- Backtracking matcher: `matchRE re s k` attempts `re` at the front of `s`
and passes the remainder to `k`. -/
def matchRE : RE → List Char → (List Char → Option (List Char)) → Option (List Char)
  | .lit c, s, k =>
    match s with
    | [] => none
    | x :: rest => if x = c then k rest else none
  | .cls p, s, k =>
    match s with
    | [] => none
    | x :: rest => if p x then k rest else none
  | .seq a b, s, k => matchRE a s (fun r => matchRE b r k)
  | .star p, s, k => greedyRun p s k
  | .lazyStar p, s, k => lazyRun p s k

/-- Right-nested sequence of regex atoms. -/
def reCat : RE → List RE → RE
  | a, [] => a
  | a, b :: rest => .seq a (reCat b rest)

/-- `/<h[1-6][^>]*>.*?<\/h[1-6]>/` -/
def headingRE : RE :=
  reCat (.lit '<') [.lit 'h', .cls isHDig, .star isAttr, .lit '>',
    .lazyStar isDot, .lit '<', .lit '/', .lit 'h', .cls isHDig, .lit '>']

/-- `/<p[^>]*>.*?<\/p>/` -/
def paraRE : RE :=
  reCat (.lit '<') [.lit 'p', .star isAttr, .lit '>',
    .lazyStar isDot, .lit '<', .lit '/', .lit 'p', .lit '>']

/-- `/<img[^>]*>/` -/
def imgRE : RE :=
  reCat (.lit '<') [.lit 'i', .lit 'm', .lit 'g', .star isAttr, .lit '>']

/-- `/<a[^>]*>.*?<\/a>/` -/
def linkRE : RE :=
  reCat (.lit '<') [.lit 'a', .star isAttr, .lit '>',
    .lazyStar isDot, .lit '<', .lit '/', .lit 'a', .lit '>']

/-- A whole-pattern attempt at the current position: the final continuation
accepts and returns the rest of the input. -/
def matchAt (re : RE) (s : List Char) : Option (List Char) := matchRE re s some

/-- `String.prototype.match` with the `g` flag counts non-overlapping
leftmost matches: try the pattern at each position, and resume after the
matched text on success.  `fuel` bounds the recursion; every successful
match of the four patterns consumes at least one character, so
`fuel = s.length` makes the scan exact. -/
def countAux (m : List Char → Option (List Char)) : Nat → List Char → Nat
  | 0, _ => 0
  | _ + 1, [] => 0
  | fuel + 1, c :: rest =>
    match m (c :: rest) with
    | some r => countAux m fuel r + 1
    | none => countAux m fuel rest

def countMatches (m : List Char → Option (List Char)) (s : List Char) : Nat :=
  countAux m s.length s

/-- The result quadruple of `handleAnalyzeContent`. -/
structure Analysis where
  headings : Nat
  paragraphs : Nat
  images : Nat
  links : Nat
deriving DecidableEq, Repr

/-- The regex analysis of `handleAnalyzeContent`
(`src/src/index.ts` lines 188–193). -/
def analyzeString (content : String) : Analysis :=
  { headings := countMatches (matchAt headingRE) content.toList
    paragraphs := countMatches (matchAt paraRE) content.toList
    images := countMatches (matchAt imgRE) content.toList
    links := countMatches (matchAt linkRE) content.toList }

/-! ## Claim-side pattern scanners

C1 describes the four patterns in words: an open tag, greedily consumed
attributes up to `>`, non-greedy content and a close tag.  The dedicated
scanners below implement exactly that description; `closeHeadingLvl` is the
close tag "of the same level" the claim asserts, `closeHeadingAny` the close
tag of any level that the source regex actually uses. -/

/-- Consume `[^>]*>` : everything up to and including the first `>`. -/
def chompAttrs : List Char → Option (List Char)
  | [] => none
  | c :: rest => if c = '>' then some rest else chompAttrs rest

/-- Non-greedy content scan: at each position try the close tag first,
otherwise consume one content character (JavaScript `.` does not match a
line terminator). -/
def scanClose (close : List Char → Option (List Char)) : List Char → Option (List Char)
  | [] => close []
  | c :: rest =>
    match close (c :: rest) with
    | some r => some r
    | none => if isDot c then scanClose close rest else none

/-- Close tag `</h[1-6]>` of any heading level. -/
def closeHeadingAny : List Char → Option (List Char)
  | a :: b :: c :: d :: e :: rest =>
    if a = '<' ∧ b = '/' ∧ c = 'h' ∧ isHDig d = true ∧ e = '>' then some rest
    else none
  | _ => none

/-- Close tag `</hd>` of the fixed level `d` (the claim's "matching close
tag of the same level"). -/
def closeHeadingLvl (d : Char) : List Char → Option (List Char)
  | a :: b :: c :: e :: f :: rest =>
    if a = '<' ∧ b = '/' ∧ c = 'h' ∧ e = d ∧ f = '>' then some rest
    else none
  | _ => none

/-- Close tag `</p>`. -/
def closePara : List Char → Option (List Char)
  | a :: b :: c :: d :: rest =>
    if a = '<' ∧ b = '/' ∧ c = 'p' ∧ d = '>' then some rest else none
  | _ => none

/-- Close tag `</a>`. -/
def closeLink : List Char → Option (List Char)
  | a :: b :: c :: d :: rest =>
    if a = '<' ∧ b = '/' ∧ c = 'a' ∧ d = '>' then some rest else none
  | _ => none

/-- Heading match as the amended claim describes it: open `<h1>`…`<h6>`,
attributes, non-greedy content, close tag of any level. -/
def matchHeadingSpec : List Char → Option (List Char)
  | a :: b :: d :: rest =>
    if a = '<' ∧ b = 'h' ∧ isHDig d = true then
      match chompAttrs rest with
      | some r => scanClose closeHeadingAny r
      | none => none
    else none
  | _ => none

/-- Heading match as claim C1 literally states it: the close tag must have
the same level as the open tag. -/
def matchHeadingSame : List Char → Option (List Char)
  | a :: b :: d :: rest =>
    if a = '<' ∧ b = 'h' ∧ isHDig d = true then
      match chompAttrs rest with
      | some r => scanClose (closeHeadingLvl d) r
      | none => none
    else none
  | _ => none

/-- Paragraph match: open `<p…>`, non-greedy content, close `</p>`. -/
def matchParaSpec : List Char → Option (List Char)
  | a :: b :: rest =>
    if a = '<' ∧ b = 'p' then
      match chompAttrs rest with
      | some r => scanClose closePara r
      | none => none
    else none
  | _ => none

/-- Image match: a self-contained `<img…>` tag, no close tag. -/
def matchImgSpec : List Char → Option (List Char)
  | a :: b :: c :: d :: rest =>
    if a = '<' ∧ b = 'i' ∧ c = 'm' ∧ d = 'g' then chompAttrs rest else none
  | _ => none

/-- Anchor match: open `<a…>`, non-greedy content, close `</a>`. -/
def matchLinkSpec : List Char → Option (List Char)
  | a :: b :: rest =>
    if a = '<' ∧ b = 'a' then
      match chompAttrs rest with
      | some r => scanClose closeLink r
      | none => none
    else none
  | _ => none

/-- The analysis described by the amended claim C1 (close tag of any
level). -/
def specAnalyze (content : String) : Analysis :=
  { headings := countMatches matchHeadingSpec content.toList
    paragraphs := countMatches matchParaSpec content.toList
    images := countMatches matchImgSpec content.toList
    links := countMatches matchLinkSpec content.toList }

/-- The analysis described by claim C1 as stated (same-level close tag). -/
def claimAnalyze (content : String) : Analysis :=
  { headings := countMatches matchHeadingSame content.toList
    paragraphs := countMatches matchParaSpec content.toList
    images := countMatches matchImgSpec content.toList
    links := countMatches matchLinkSpec content.toList }

/-! ## Filesystem, browser state and the two handlers -/

/-- A filesystem entry. -/
inductive Entry where
  | file (content : String)
  | dir
deriving DecidableEq, Repr

/-- A flat map from absolute path strings to entries. -/
structure FS where
  entries : List (String × Entry)
deriving DecidableEq, Repr

def FS.lookup (fs : FS) (p : String) : Option Entry :=
  (fs.entries.find? (fun e => e.1 = p)).map (fun e => e.2)

def FS.insert (fs : FS) (p : String) (e : Entry) : FS :=
  ⟨(p, e) :: fs.entries.filter (fun q => q.1 ≠ p)⟩

/-- `fs.existsSync`: true iff the path references an existing entry (file or
directory); an invalid path argument — here `none`, the embedding of a
missing `filePath`, interpolated by JavaScript as `undefined` — is caught
internally and reported as `false`. -/
def existsSync (fs : FS) : Option String → Bool
  | none => false
  | some p => (fs.lookup p).isSome

inductive FsErr where
  | enoent
  | eisdir
deriving DecidableEq, Repr

/-- `fs.readFileSync(p, 'utf-8')`: the file's text, `ENOENT` on a missing
path, `EISDIR` on a directory. -/
def readFileSync (fs : FS) (p : String) : Except FsErr String :=
  match fs.lookup p with
  | some (.file c) => .ok c
  | some .dir => .error .eisdir
  | none => .error .enoent

/-- The error kinds a call can surface, one per `throw` site of the source
(plus `missingArg`, the `MissingArgumentError` the spec postulates, which no
path of `src/src/index.ts` produces). -/
inductive PvError where
  | notFound (path : String)
  | missingArg
  | engineLaunch
  | newPageFail
  | viewportFail
  | navTimeout
  | styleResource (path : String)
  | pageOpFail
  | screenshotFail
  | readErr (e : FsErr)
deriving DecidableEq, Repr

/-- Process state: the filesystem, the lazily created browser handle
(`this.browser`), a counter of `puppeteer.launch` calls and the number of
currently open pages of the shared session. -/
structure World where
  fs : FS
  browser : Option Nat
  launchCount : Nat
  openPages : Nat
deriving DecidableEq, Repr

/-- Outcomes of the external (puppeteer) calls of one `previewFile`
invocation: whether each call succeeds, the value of `Date.now()`, the
rendered markup returned by `page.content()` and the screenshot bytes. -/
structure Oracle where
  launchOk : Bool
  newPageOk : Bool
  viewportOk : Bool
  cspOk : Bool
  headersOk : Bool
  gotoOk : Bool
  addStyle1Ok : Bool
  addStyle2Ok : Bool
  evalOk : Bool
  screenshotOk : Bool
  contentOk : Bool
  now : Nat
  rendered : String
  shot : String
deriving DecidableEq, Repr

/-- `initBrowser` (`src/src/index.ts` lines 35–40): launch once, reuse the
stored handle afterwards. -/
def initBrowser (w : World) (o : Oracle) : World × Except PvError Nat :=
  match w.browser with
  | some h => (w, .ok h)
  | none =>
    if o.launchOk then
      ({ w with browser := some w.launchCount, launchCount := w.launchCount + 1 },
        .ok w.launchCount)
    else (w, .error .engineLaunch)

/-- Arguments of `preview_file`; a missing field of the argument mapping is
`none`. -/
structure PvArgs where
  filePath : Option String
  width : Option Nat
  height : Option Nat
deriving DecidableEq, Repr

/-- Arguments of `analyze_content`. -/
structure AnArgs where
  filePath : Option String
deriving DecidableEq, Repr

/-- Result of a successful `preview_file` call. -/
structure PvResult where
  screenshotPath : String
  content : String
deriving DecidableEq, Repr

/-- JavaScript string interpolation of the `filePath` binding
(`undefined` when the field is missing). -/
def optPathStr : Option String → String
  | none => "undefined"
  | some p => p

/-- `path.join(baseDir, '..', 'style.css')` — the shared stylesheet
(line 128). -/
def mainCssPath (fp : String) : String := join3 (dirname fp) ".." "style.css"

/-- `path.join(baseDir, path.basename(filePath).replace('.html', '.css'))`
— the per-page stylesheet (line 129). -/
def pageCssPath (fp : String) : String :=
  join2 (dirname fp) (jsReplaceFirst (basenameStr fp) ".html" ".css")

/-- The hard-coded screenshots directory (line 149). -/
def screenshotsDir : String :=
  join2 "/Users/seanivore/Documents/Cline/MCP/mcp-file-preview" "screenshots"

/-- `` `${path.basename(filePath, '.html')}_${Date.now()}.png` `` (line 155). -/
def screenshotName (fp : String) (now : Nat) : String :=
  basenameExt fp ".html" ++ "_" ++ toString now ++ ".png"

/-- `path.join(screenshotsDir, screenshotName)` (line 156). -/
def screenshotPathOf (fp : String) (now : Nat) : String :=
  join2 screenshotsDir (screenshotName fp now)

/-- The `try` block of `handlePreviewFile` (lines 112–172): CSP bypass,
headers, navigation, stylesheet loading and injection, image wait, 1 s
delay, screenshots directory creation, screenshot, content retrieval. -/
def previewTry (fp : String) (o : Oracle) (w : World) :
    World × Except PvError PvResult :=
  if o.cspOk = false then (w, .error .pageOpFail)
  else if o.headersOk = false then (w, .error .pageOpFail)
  else if o.gotoOk = false then (w, .error .navTimeout)
  else
    match readFileSync w.fs (mainCssPath fp) with
    | .error _ => (w, .error (.styleResource (mainCssPath fp)))
    | .ok _ =>
      match readFileSync w.fs (pageCssPath fp) with
      | .error _ => (w, .error (.styleResource (pageCssPath fp)))
      | .ok _ =>
        if o.addStyle1Ok = false then (w, .error .pageOpFail)
        else if o.addStyle2Ok = false then (w, .error .pageOpFail)
        else if o.evalOk = false then (w, .error .pageOpFail)
        else
          let w1 :=
            if existsSync w.fs (some screenshotsDir) then w
            else { w with fs := w.fs.insert screenshotsDir .dir }
          if o.screenshotOk = false then (w1, .error .screenshotFail)
          else
            let spath := screenshotPathOf fp o.now
            let w2 := { w1 with fs := w1.fs.insert spath (.file o.shot) }
            if o.contentOk = false then (w2, .error .pageOpFail)
            else (w2, .ok { screenshotPath := spath, content := o.rendered })

/-- `handlePreviewFile` (lines 101–176).  The existence check comes first;
`browser.newPage()` and `page.setViewport(...)` run before the `try` block,
so a failing viewport call is not covered by the `finally` that closes the
page. -/
def handlePreviewFile (a : PvArgs) (o : Oracle) (w : World) :
    World × Except PvError PvResult :=
  if existsSync w.fs a.filePath = false then
    (w, .error (.notFound (optPathStr a.filePath)))
  else
    let fp := optPathStr a.filePath
    let (w1, rb) := initBrowser w o
    match rb with
    | .error e => (w1, .error e)
    | .ok _ =>
      if o.newPageOk = false then (w1, .error .newPageFail)
      else
        let w2 := { w1 with openPages := w1.openPages + 1 }
        if o.viewportOk = false then (w2, .error .viewportFail)
        else
          let (w3, r) := previewTry fp o w2
          ({ w3 with openPages := w3.openPages - 1 }, r)

/-- `handleAnalyzeContent` (lines 178–203): existence check, file read,
regex counts. -/
def handleAnalyzeContent (a : AnArgs) (w : World) :
    World × Except PvError Analysis :=
  if existsSync w.fs a.filePath = false then
    (w, .error (.notFound (optPathStr a.filePath)))
  else
    match readFileSync w.fs (optPathStr a.filePath) with
    | .error e => (w, .error (.readErr e))
    | .ok content => (w, .ok (analyzeString content))

/-! ## Claim-side path derivations (C6) -/

/-- Render an absolute path from its segments. -/
def renderAbs (parts : List (List Char)) : String :=
  String.mk ('/' :: intercalateSlash parts)

/-- A well-formed path segment: non-empty, without separators, and not one
of the special segments `"."`, `".."`. -/
def segOK (seg : List Char) : Prop :=
  seg ≠ [] ∧ ¬ '/' ∈ seg ∧ seg ≠ ['.'] ∧ seg ≠ ['.', '.']

instance (seg : List Char) : Decidable (segOK seg) := by
  unfold segOK; infer_instance

/-- Modelled from claim C6's wording: the name obtained by replacing the
target's `.html` extension (a suffix) with `.css`. -/
def extToCss (name : String) : String :=
  match stripSuffix name.toList ".html".toList with
  | some pre => String.mk (pre ++ ".css".toList)
  | none => name

/-- Modelled from claim C6's wording: the per-page stylesheet path, the
basename's `.html` extension replaced by `.css`, in the same directory. -/
def specPageCssPath (fp : String) : String :=
  join2 (dirname fp) (extToCss (basenameStr fp))

/-- Equality of call results is decidable (used to evaluate the handlers on
concrete inputs). -/
instance {ε α : Type} [DecidableEq ε] [DecidableEq α] : DecidableEq (Except ε α) :=
  fun x y =>
    match x, y with
    | .ok a, .ok b =>
      if h : a = b then isTrue (by rw [h])
      else isFalse (by intro he; cases he; exact h rfl)
    | .error a, .error b =>
      if h : a = b then isTrue (by rw [h])
      else isFalse (by intro he; cases he; exact h rfl)
    | .ok _, .error _ => isFalse (by intro he; cases he)
    | .error _, .ok _ => isFalse (by intro he; cases he)

/-! # Theorems -/

/-! ## The regex engine agrees with the claim-side scanners (C1) -/

/-- `[^>]*` followed by a literal `>`: the greedy star cannot skip a `>`, so
backtracking reduces to consuming everything up to the first `>`. -/
theorem greedyRun_attrs (u : List Char → Option (List Char)) (s : List Char) :
    greedyRun isAttr s (fun r => matchRE (.lit '>') r u) =
      (match chompAttrs s with
        | some r => u r
        | none => none) := by
  induction s with
  | nil => rfl
  | cons c rest ih =>
    by_cases hc : c = '>'
    · subst hc
      simp [greedyRun, matchRE, chompAttrs, isAttr]
    · have h1 : isAttr c = true := by simp [isAttr, hc]
      have hK : matchRE (.lit '>') (c :: rest) u = none := by
        simp [matchRE, hc]
      have e2 : chompAttrs (c :: rest) = chompAttrs rest := by
        simp [chompAttrs, hc]
      have e3 : greedyRun isAttr (c :: rest) (fun r => matchRE (.lit '>') r u) =
          (match greedyRun isAttr rest (fun r => matchRE (.lit '>') r u) with
            | some r => some r
            | none => matchRE (.lit '>') (c :: rest) u) := by
        simp [greedyRun, h1]
      rw [e3, ih, hK, e2]
      cases chompAttrs rest with
      | none => simp
      | some r => cases h4 : u r <;> simp [h4]

/-- A lazy star whose continuation is a close-tag matcher is the non-greedy
scan `scanClose`. -/
theorem lazyRun_scanClose (cl K : List Char → Option (List Char))
    (hK : ∀ r, K r = cl r) (s : List Char) :
    lazyRun isDot s K = scanClose cl s := by
  induction s with
  | nil => simpa [lazyRun, scanClose] using hK []
  | cons c rest ih =>
    have e1 : lazyRun isDot (c :: rest) K =
        (match cl (c :: rest) with
          | some r => some r
          | none => if isDot c then lazyRun isDot rest K else none) := by
      simp [lazyRun, hK]
    rw [e1, scanClose]
    cases cl (c :: rest) with
    | some r => rfl
    | none => simp [ih]

/-- The close-tag tail `<\/h[1-6]>` of the heading regex is
`closeHeadingAny`. -/
theorem closeHeadingAny_eq (r : List Char) :
    matchRE (.seq (.lit '<') (.seq (.lit '/') (.seq (.lit 'h')
      (.seq (.cls isHDig) (.lit '>'))))) r some = closeHeadingAny r := by
  rcases r with _ | ⟨a, _ | ⟨b, _ | ⟨c, _ | ⟨d, _ | ⟨e, rest⟩⟩⟩⟩⟩ <;>
    simp [matchRE, closeHeadingAny, ite_self] <;>
    · by_cases ha : a = '<' <;> by_cases hb : b = '/' <;> by_cases hc : c = 'h' <;>
        by_cases hd : isHDig d = true <;> by_cases he : e = '>' <;>
      simp [ha, hb, hc, hd, he]

/-- The close-tag tail `<\/p>` of the paragraph regex is `closePara`. -/
theorem closePara_eq (r : List Char) :
    matchRE (.seq (.lit '<') (.seq (.lit '/') (.seq (.lit 'p') (.lit '>'))))
      r some = closePara r := by
  rcases r with _ | ⟨a, _ | ⟨b, _ | ⟨c, _ | ⟨d, rest⟩⟩⟩⟩ <;>
    simp [matchRE, closePara, ite_self] <;>
    · by_cases ha : a = '<' <;> by_cases hb : b = '/' <;> by_cases hc : c = 'p' <;>
        by_cases hd : d = '>' <;>
      simp [ha, hb, hc, hd]

/-- The close-tag tail `<\/a>` of the anchor regex is `closeLink`. -/
theorem closeLink_eq (r : List Char) :
    matchRE (.seq (.lit '<') (.seq (.lit '/') (.seq (.lit 'a') (.lit '>'))))
      r some = closeLink r := by
  rcases r with _ | ⟨a, _ | ⟨b, _ | ⟨c, _ | ⟨d, rest⟩⟩⟩⟩ <;>
    simp [matchRE, closeLink, ite_self] <;>
    · by_cases ha : a = '<' <;> by_cases hb : b = '/' <;> by_cases hc : c = 'a' <;>
        by_cases hd : d = '>' <;>
      simp [ha, hb, hc, hd]

/-- One attempt of `/<h[1-6][^>]*>.*?<\/h[1-6]>/` equals the claim-side
heading scanner (with close tag of any level). -/
theorem matchAt_heading_eq (s : List Char) : matchAt headingRE s = matchHeadingSpec s := by
  rcases s with _ | ⟨a, _ | ⟨b, _ | ⟨d, rest⟩⟩⟩
  · rfl
  · simp [matchAt, headingRE, reCat, matchRE, matchHeadingSpec, ite_self]
  · simp [matchAt, headingRE, reCat, matchRE, matchHeadingSpec, ite_self]
  · by_cases ha : a = '<'
    · by_cases hb : b = 'h'
      · subst ha; subst hb
        by_cases hd : isHDig d = true
        · have e1 : matchAt headingRE ('<' :: 'h' :: d :: rest) =
              (if isHDig d = true then
                greedyRun isAttr rest (fun r => matchRE (.lit '>') r (fun r2 =>
                  lazyRun isDot r2 (fun t =>
                    matchRE (.seq (.lit '<') (.seq (.lit '/') (.seq (.lit 'h')
                      (.seq (.cls isHDig) (.lit '>'))))) t some)))
              else none) := rfl
          rw [e1, if_pos hd, greedyRun_attrs]
          simp only [matchHeadingSpec, hd, and_true, true_and, if_pos rfl]
          cases chompAttrs rest with
          | none => rfl
          | some r =>
            exact lazyRun_scanClose closeHeadingAny _ closeHeadingAny_eq r
        · simp [matchAt, headingRE, reCat, matchRE, matchHeadingSpec, hd, ite_self]
      · simp [matchAt, headingRE, reCat, matchRE, matchHeadingSpec, hb, ite_self]
    · simp [matchAt, headingRE, reCat, matchRE, matchHeadingSpec, ha, ite_self]

/-- One attempt of `/<p[^>]*>.*?<\/p>/` equals the claim-side paragraph
scanner. -/
theorem matchAt_para_eq (s : List Char) : matchAt paraRE s = matchParaSpec s := by
  rcases s with _ | ⟨a, _ | ⟨b, rest⟩⟩
  · rfl
  · simp [matchAt, paraRE, reCat, matchRE, matchParaSpec, ite_self]
  · by_cases ha : a = '<'
    · by_cases hb : b = 'p'
      · subst ha; subst hb
        have e1 : matchAt paraRE ('<' :: 'p' :: rest) =
            greedyRun isAttr rest (fun r => matchRE (.lit '>') r (fun r2 =>
              lazyRun isDot r2 (fun t =>
                matchRE (.seq (.lit '<') (.seq (.lit '/') (.seq (.lit 'p')
                  (.lit '>')))) t some))) := rfl
        rw [e1, greedyRun_attrs]
        simp only [matchParaSpec, and_self, if_pos rfl, true_and]
        cases chompAttrs rest with
        | none => rfl
        | some r => exact lazyRun_scanClose closePara _ closePara_eq r
      · simp [matchAt, paraRE, reCat, matchRE, matchParaSpec, hb, ite_self]
    · simp [matchAt, paraRE, reCat, matchRE, matchParaSpec, ha, ite_self]

/-- One attempt of `/<img[^>]*>/` equals the claim-side image scanner. -/
theorem matchAt_img_eq (s : List Char) : matchAt imgRE s = matchImgSpec s := by
  rcases s with _ | ⟨a, _ | ⟨b, _ | ⟨c, _ | ⟨d, rest⟩⟩⟩⟩
  · rfl
  · simp [matchAt, imgRE, reCat, matchRE, matchImgSpec, ite_self]
  · simp [matchAt, imgRE, reCat, matchRE, matchImgSpec, ite_self]
  · simp [matchAt, imgRE, reCat, matchRE, matchImgSpec, ite_self]
  · by_cases ha : a = '<'
    · by_cases hb : b = 'i'
      · by_cases hc : c = 'm'
        · by_cases hd : d = 'g'
          · subst ha; subst hb; subst hc; subst hd
            have e1 : matchAt imgRE ('<' :: 'i' :: 'm' :: 'g' :: rest) =
                greedyRun isAttr rest (fun r => matchRE (.lit '>') r some) := rfl
            rw [e1, greedyRun_attrs]
            simp only [matchImgSpec, and_self, if_pos rfl, true_and]
            cases chompAttrs rest <;> rfl
          · simp [matchAt, imgRE, reCat, matchRE, matchImgSpec, hd, ite_self]
        · simp [matchAt, imgRE, reCat, matchRE, matchImgSpec, hc, ite_self]
      · simp [matchAt, imgRE, reCat, matchRE, matchImgSpec, hb, ite_self]
    · simp [matchAt, imgRE, reCat, matchRE, matchImgSpec, ha, ite_self]

/-- One attempt of `/<a[^>]*>.*?<\/a>/` equals the claim-side anchor
scanner. -/
theorem matchAt_link_eq (s : List Char) : matchAt linkRE s = matchLinkSpec s := by
  rcases s with _ | ⟨a, _ | ⟨b, rest⟩⟩
  · rfl
  · simp [matchAt, linkRE, reCat, matchRE, matchLinkSpec, ite_self]
  · by_cases ha : a = '<'
    · by_cases hb : b = 'a'
      · subst ha; subst hb
        have e1 : matchAt linkRE ('<' :: 'a' :: rest) =
            greedyRun isAttr rest (fun r => matchRE (.lit '>') r (fun r2 =>
              lazyRun isDot r2 (fun t =>
                matchRE (.seq (.lit '<') (.seq (.lit '/') (.seq (.lit 'a')
                  (.lit '>')))) t some))) := rfl
        rw [e1, greedyRun_attrs]
        simp only [matchLinkSpec, and_self, if_pos rfl, true_and]
        cases chompAttrs rest with
        | none => rfl
        | some r => exact lazyRun_scanClose closeLink _ closeLink_eq r
      · simp [matchAt, linkRE, reCat, matchRE, matchLinkSpec, hb, ite_self]
    · simp [matchAt, linkRE, reCat, matchRE, matchLinkSpec, ha, ite_self]

/-- The global scan only depends on the matcher extensionally. -/
theorem countAux_congr (m₁ m₂ : List Char → Option (List Char))
    (h : ∀ t, m₁ t = m₂ t) :
    ∀ fuel s, countAux m₁ fuel s = countAux m₂ fuel s := by
  intro fuel
  induction fuel with
  | zero => intro s; rfl
  | succ n ih =>
    intro s
    cases s with
    | nil => rfl
    | cons c rest =>
      simp only [countAux, h]
      cases m₂ (c :: rest) with
      | some r => simp [ih]
      | none => simp [ih]

/-- `analyzeString` computes exactly the claim-side pattern counts (with
heading close tags of any level). -/
theorem analyzeString_eq_spec (content : String) :
    analyzeString content = specAnalyze content := by
  unfold analyzeString specAnalyze countMatches
  rw [countAux_congr _ _ matchAt_heading_eq, countAux_congr _ _ matchAt_para_eq,
    countAux_congr _ _ matchAt_img_eq, countAux_congr _ _ matchAt_link_eq]

/-! ## Claim C1 -/

/-- C1 (counterexample): on `"<h1>x</h2>"` the source counts one heading,
although the close tag level differs from the open tag level; the pattern
claimed in C1 — close tag of the same level — yields zero headings there. -/
theorem C1_counterexample :
    analyzeString "<h1>x</h2>" = ⟨1, 0, 0, 0⟩ ∧
    claimAnalyze "<h1>x</h2>" = ⟨0, 0, 0, 0⟩ ∧
    analyzeString "<h1>x</h2>" ≠ claimAnalyze "<h1>x</h2>" :=
  ⟨by decide, by decide, by decide⟩

/-- C1 (amended): for every input string, `analyzeContent` returns exactly
the numbers of non-overlapping matches of the four fixed lexical patterns —
headings as an open tag `<h1>`…`<h6>` followed by non-greedy content and a
close tag of *any* level `</h1>`…`</h6>`, paragraphs as `<p>`
open+content+close, images as a self-contained `<img>` tag, anchors as `<a>`
open+content+close; in particular, on an input containing exactly 3 `<h1>`,
2 `<p>`, 1 `<img>`, 4 `<a>` tags it returns
`{headings:3, paragraphs:2, images:1, links:4}`. -/
theorem C1_analyze_counts :
    (∀ content : String, analyzeString content = specAnalyze content) ∧
    analyzeString
      "<h1>A</h1><h1>B</h1><h1>C</h1><p>x</p><p>y</p><img src=q><a>1</a><a>2</a><a>3</a><a>4</a>" =
      ⟨3, 2, 1, 4⟩ :=
  ⟨analyzeString_eq_spec, by decide⟩

/-! ## Claim C2 -/

/-- C2: for a path that references no filesystem entry, both operations
fail with the not-found error and return the world unchanged — no browser
page is created, no filesystem write happens, the browser handle and launch
count are untouched. -/
theorem C2_notfound_no_effects (p : String) (a : PvArgs) (o : Oracle) (w : World)
    (hfp : a.filePath = some p) (habs : w.fs.lookup p = none) :
    handlePreviewFile a o w = (w, .error (.notFound p)) ∧
    handleAnalyzeContent ⟨some p⟩ w = (w, .error (.notFound p)) := by
  constructor
  · simp [handlePreviewFile, hfp, existsSync, habs, optPathStr]
  · simp [handleAnalyzeContent, existsSync, habs, optPathStr]

/-- Witness for C2 at a concrete world and path. -/
theorem C2_witness :
    handlePreviewFile ⟨some "/missing.html", none, none⟩
        ⟨true, true, true, true, true, true, true, true, true, true, true, 0, "", ""⟩
        ⟨⟨[]⟩, none, 0, 0⟩ =
      (⟨⟨[]⟩, none, 0, 0⟩, .error (.notFound "/missing.html")) ∧
    handleAnalyzeContent ⟨some "/missing.html"⟩ ⟨⟨[]⟩, none, 0, 0⟩ =
      (⟨⟨[]⟩, none, 0, 0⟩, .error (.notFound "/missing.html")) :=
  C2_notfound_no_effects "/missing.html" ⟨some "/missing.html", none, none⟩ _ _ rfl
    (by decide)

/-! ## Claim C3 -/

/-- C3 (counterexample): with `filePath` missing, the call does not fail
with `MissingArgumentError` — the implementation has no such check; it
reaches the existence check (`fs.existsSync(undefined)` is `false`) and
fails with the not-found error for `"undefined"`. -/
theorem C3_counterexample :
    (handlePreviewFile ⟨none, none, none⟩
        ⟨true, true, true, true, true, true, true, true, true, true, true, 0, "", ""⟩
        ⟨⟨[]⟩, none, 0, 0⟩).2 = .error (.notFound "undefined") ∧
    (handlePreviewFile ⟨none, none, none⟩
        ⟨true, true, true, true, true, true, true, true, true, true, true, 0, "", ""⟩
        ⟨⟨[]⟩, none, 0, 0⟩).2 ≠ .error .missingArg ∧
    (handleAnalyzeContent ⟨none⟩ ⟨⟨[]⟩, none, 0, 0⟩).2 ≠ .error .missingArg :=
  ⟨by decide, by decide, by decide⟩

/-- C3 (amended): for every call of either operation whose argument
mapping lacks `filePath`, the call fails with the not-found error for
`"undefined"` (raised at the existence check; there is no separate
`MissingArgumentError`), before any browser access and with no change to
the filesystem or browser state. -/
theorem C3_missing_filepath (o : Oracle) (w : World) (wd ht : Option Nat) :
    handlePreviewFile ⟨none, wd, ht⟩ o w = (w, .error (.notFound "undefined")) ∧
    handleAnalyzeContent ⟨none⟩ w = (w, .error (.notFound "undefined")) := by
  constructor
  · simp [handlePreviewFile, existsSync, optPathStr]
  · simp [handleAnalyzeContent, existsSync, optPathStr]

/-! ## Claim C8 -/

/-- C8: `analyzeContent` is deterministic, side-effect-free and idempotent:
it returns the world unchanged (so the file is unchanged), and invoking it
again on the resulting world returns the identical answer. -/
theorem C8_analyze_idempotent (a : AnArgs) (w : World) :
    (handleAnalyzeContent a w).1 = w ∧
    handleAnalyzeContent a ((handleAnalyzeContent a w).1) = handleAnalyzeContent a w := by
  have h1 : (handleAnalyzeContent a w).1 = w := by
    unfold handleAnalyzeContent
    split
    · rfl
    · split <;> rfl
  exact ⟨h1, by rw [h1]⟩

/-! ## Page and browser lifecycle (C5, C7) -/

/-- The `try` block only touches the filesystem: the browser handle is
untouched. -/
theorem previewTry_browser (fp : String) (o : Oracle) (w : World) :
    (previewTry fp o w).1.browser = w.browser := by
  unfold previewTry
  repeat' split
  all_goals simp

/-- The `try` block does not open or close pages. -/
theorem previewTry_pages (fp : String) (o : Oracle) (w : World) :
    (previewTry fp o w).1.openPages = w.openPages := by
  unfold previewTry
  repeat' split
  all_goals simp

/-- The `try` block never relaunches the browser. -/
theorem previewTry_launchCount (fp : String) (o : Oracle) (w : World) :
    (previewTry fp o w).1.launchCount = w.launchCount := by
  unfold previewTry
  repeat' split
  all_goals simp

/-- With a live handle, `initBrowser` is the identity and returns that
handle. -/
theorem initBrowser_some (w : World) (o : Oracle) (h : Nat)
    (hb : w.browser = some h) : initBrowser w o = (w, .ok h) := by
  unfold initBrowser
  rw [hb]

/-- A `previewFile` call never discards an existing browser handle,
whether it succeeds or fails. -/
theorem preview_browser_stable (a : PvArgs) (o : Oracle) (w : World) (h : Nat)
    (hb : w.browser = some h) : (handlePreviewFile a o w).1.browser = some h := by
  unfold handlePreviewFile
  rw [initBrowser_some w o h hb]
  repeat' split
  all_goals simp_all [previewTry_browser]

/-! ## Claim C5 -/

/-- C5 (counterexample): a run that reaches page creation and then fails at
`page.setViewport` — which the source places before the `try`/`finally` —
ends with the page still open (`openPages` went from 0 to 1 and was never
closed), contradicting "the per-call page is closed on every exit path of
steps 2 through 10". -/
theorem C5_counterexample :
    (handlePreviewFile ⟨some "/a/b.html", none, none⟩
        ⟨true, true, false, true, true, true, true, true, true, true, true, 0, "", ""⟩
        ⟨⟨[("/a/b.html", .file "x")]⟩, none, 0, 0⟩).1.openPages = 1 ∧
    (handlePreviewFile ⟨some "/a/b.html", none, none⟩
        ⟨true, true, false, true, true, true, true, true, true, true, true, 0, "", ""⟩
        ⟨⟨[("/a/b.html", .file "x")]⟩, none, 0, 0⟩).2 = .error .viewportFail :=
  ⟨by decide, by decide⟩

/-- C5 (amended): for every invocation whose viewport step succeeds, the
per-call page is closed on every exit path of the remaining steps 3–10
(CSP/header configuration, navigation, style injection, image wait,
screenshot, content retrieval), so no orphaned page remains in the shared
session; the session handle itself stays open.  (If `page.setViewport`
itself fails, the page leaks: that call sits before the `try`/`finally` of
the source.) -/
theorem C5_page_cleanup (a : PvArgs) (o : Oracle) (w : World)
    (hv : o.viewportOk = true) :
    (handlePreviewFile a o w).1.openPages = w.openPages ∧
    (∀ h, w.browser = some h → (handlePreviewFile a o w).1.browser = some h) := by
  refine ⟨?_, fun h hb => preview_browser_stable a o w h hb⟩
  unfold handlePreviewFile
  cases hbr : w.browser with
  | some h =>
    rw [initBrowser_some w o h hbr]
    dsimp only
    repeat' split
    all_goals simp_all [previewTry_pages]
  | none =>
    by_cases hl : o.launchOk = true
    · have e1 : initBrowser w o =
          ({ w with browser := some w.launchCount, launchCount := w.launchCount + 1 },
            .ok w.launchCount) := by
        unfold initBrowser
        rw [hbr]
        simp [hl]
      rw [e1]
      dsimp only
      repeat' split
      all_goals simp_all [previewTry_pages]
    · have e1 : initBrowser w o = (w, .error .engineLaunch) := by
        unfold initBrowser
        rw [hbr]
        simp [hl]
      rw [e1]
      dsimp only
      repeat' split
      all_goals simp_all [previewTry_pages]

/-! ## Claim C7 -/

/-- `analyzeContent` returns the world unchanged. -/
theorem analyze_world_eq (a : AnArgs) (w : World) :
    (handleAnalyzeContent a w).1 = w := by
  unfold handleAnalyzeContent
  split
  · rfl
  · split <;> rfl

/-- C7: the browser-session acquire operation is idempotent and keeps the
singleton invariant — with a live handle it returns that same handle and
changes nothing; from the empty state a successful launch installs a handle
that every later call returns without relaunching; and no call (successful
or failed) of either operation discards a live handle. -/
theorem C7_browser_singleton (w : World) (o : Oracle) :
    (∀ h, w.browser = some h → initBrowser w o = (w, .ok h)) ∧
    (w.browser = none → o.launchOk = true →
      (initBrowser w o).1.browser = some w.launchCount ∧
      (initBrowser w o).2 = .ok w.launchCount ∧
      initBrowser (initBrowser w o).1 o = ((initBrowser w o).1, .ok w.launchCount)) ∧
    (∀ a h, w.browser = some h →
      (handlePreviewFile a o w).1.browser = some h ∧
      (handleAnalyzeContent ⟨a.filePath⟩ w).1.browser = some h) := by
  refine ⟨fun h hb => initBrowser_some w o h hb, ?_,
    fun a h hb => ⟨preview_browser_stable a o w h hb, by rw [analyze_world_eq]; exact hb⟩⟩
  intro hbr hl
  have e1 : initBrowser w o =
      ({ w with browser := some w.launchCount, launchCount := w.launchCount + 1 },
        .ok w.launchCount) := by
    unfold initBrowser
    rw [hbr]
    simp [hl]
  rw [e1]
  refine ⟨rfl, rfl, ?_⟩
  exact initBrowser_some _ o w.launchCount rfl

/-- Witness for C7 at concrete worlds: a live handle `5` is returned
unchanged and survives a `previewFile` call; from the empty state handle `3`
is installed and the next acquire returns it. -/
theorem C7_witness :
    initBrowser ⟨⟨[]⟩, some 5, 6, 0⟩
        ⟨true, true, true, true, true, true, true, true, true, true, true, 0, "", ""⟩ =
      (⟨⟨[]⟩, some 5, 6, 0⟩, .ok 5) ∧
    (initBrowser ⟨⟨[]⟩, none, 3, 0⟩
        ⟨true, true, true, true, true, true, true, true, true, true, true, 0, "", ""⟩).1.browser =
      some 3 ∧
    (handlePreviewFile ⟨some "/x.html", none, none⟩
        ⟨true, true, true, true, true, true, true, true, true, true, true, 0, "", ""⟩
        ⟨⟨[]⟩, some 5, 6, 0⟩).1.browser = some 5 := by
  have t1 := C7_browser_singleton ⟨⟨[]⟩, some 5, 6, 0⟩
    ⟨true, true, true, true, true, true, true, true, true, true, true, 0, "", ""⟩
  have t2 := C7_browser_singleton ⟨⟨[]⟩, none, 3, 0⟩
    ⟨true, true, true, true, true, true, true, true, true, true, true, 0, "", ""⟩
  exact ⟨t1.1 5 rfl, (t2.2.1 rfl rfl).1,
    (t1.2.2 ⟨some "/x.html", none, none⟩ 5 rfl).1⟩

/-! ## Style-resource failures (C4, C9) -/

/-- If either stylesheet read fails (missing file or directory), the `try`
block fails at the style-loading step with a style-resource error and leaves
the world untouched — in particular no screenshot write and no directory
creation happened. -/
theorem previewTry_style_fail (fp : String) (o : Oracle) (w : World)
    (hcsp : o.cspOk = true) (hh : o.headersOk = true) (hg : o.gotoOk = true)
    (hcss : (∀ c, w.fs.lookup (mainCssPath fp) ≠ some (.file c)) ∨
            (∀ c, w.fs.lookup (pageCssPath fp) ≠ some (.file c))) :
    (∃ q, (previewTry fp o w).2 = .error (.styleResource q)) ∧
    (previewTry fp o w).1 = w := by
  unfold previewTry
  simp only [hcsp, hh, hg]
  rcases h1 : w.fs.lookup (mainCssPath fp) with _ | e
  · simp [readFileSync, h1]
  · cases e with
    | dir => simp [readFileSync, h1]
    | file c =>
      rcases hcss with hL | hR
      · exact absurd h1 (hL c)
      · rcases h2 : w.fs.lookup (pageCssPath fp) with _ | e2
        · simp [readFileSync, h1, h2]
        · cases e2 with
          | dir => simp [readFileSync, h1, h2]
          | file c2 => exact absurd h2 (hR c2)

/-- When the existence check passes and page creation plus viewport setup
succeed, `handlePreviewFile` is the `try` block (run on a world that differs
from the caller's only in browser bookkeeping) followed by the
page-closing `finally`. -/
theorem preview_reaches_try (fp : String) (a : PvArgs) (o : Oracle) (w : World)
    (hfp : a.filePath = some fp) (hex : existsSync w.fs a.filePath = true)
    (hb : w.browser.isSome = true ∨ o.launchOk = true)
    (hnp : o.newPageOk = true) (hv : o.viewportOk = true) :
    ∃ w1 : World, w1.fs = w.fs ∧
      handlePreviewFile a o w =
        ({ (previewTry fp o { w1 with openPages := w1.openPages + 1 }).1 with
            openPages :=
              (previewTry fp o { w1 with openPages := w1.openPages + 1 }).1.openPages - 1 },
          (previewTry fp o { w1 with openPages := w1.openPages + 1 }).2) := by
  unfold handlePreviewFile
  rw [hfp] at hex ⊢
  simp only [hex, Bool.true_eq_false, if_false]
  have hofp : optPathStr (some fp) = fp := rfl
  rw [hofp]
  cases hbr : w.browser with
  | some h =>
    refine ⟨w, rfl, ?_⟩
    rw [initBrowser_some w o h hbr]
    dsimp only
    simp [hnp, hv]
  | none =>
    rcases hb with hb | hl
    · rw [hbr] at hb
      cases hb
    · refine ⟨{ w with browser := some w.launchCount, launchCount := w.launchCount + 1 },
        rfl, ?_⟩
      have e1 : initBrowser w o =
          ({ w with browser := some w.launchCount, launchCount := w.launchCount + 1 },
            .ok w.launchCount) := by
        unfold initBrowser
        rw [hbr]
        simp [hl]
      rw [e1]
      dsimp only
      simp [hnp, hv]

/-! ## Claim C4 -/

/-- C4: for an existing input path whose shared stylesheet
(`<dir>/../style.css`) or per-page stylesheet (`.html` replaced by `.css`)
is absent at its derived path, a `previewFile` call whose browser steps up
to navigation succeed fails at the style-loading step with a style-resource
error and performs no filesystem write at all — in particular no screenshot
write. -/
theorem C4_style_missing (fp : String) (a : PvArgs) (o : Oracle) (w : World)
    (e : Entry) (hfp : a.filePath = some fp) (hex : w.fs.lookup fp = some e)
    (hb : w.browser.isSome = true ∨ o.launchOk = true)
    (hnp : o.newPageOk = true) (hv : o.viewportOk = true)
    (hcsp : o.cspOk = true) (hh : o.headersOk = true) (hg : o.gotoOk = true)
    (habs : w.fs.lookup (mainCssPath fp) = none ∨
            w.fs.lookup (pageCssPath fp) = none) :
    (∃ q, (handlePreviewFile a o w).2 = .error (.styleResource q)) ∧
    (handlePreviewFile a o w).1.fs = w.fs := by
  have hex2 : existsSync w.fs a.filePath = true := by
    rw [hfp]
    simp [existsSync, hex]
  obtain ⟨w1, hfs, heq⟩ := preview_reaches_try fp a o w hfp hex2 hb hnp hv
  have hcss : (∀ c, ({ w1 with openPages := w1.openPages + 1 } : World).fs.lookup
        (mainCssPath fp) ≠ some (.file c)) ∨
      (∀ c, ({ w1 with openPages := w1.openPages + 1 } : World).fs.lookup
        (pageCssPath fp) ≠ some (.file c)) := by
    rcases habs with h | h
    · left
      intro c
      simp only [hfs, h]
      intro hc
      cases hc
    · right
      intro c
      simp only [hfs, h]
      intro hc
      cases hc
  have hst := previewTry_style_fail fp o _ hcsp hh hg hcss
  rw [heq]
  obtain ⟨q, hq⟩ := hst.1
  refine ⟨⟨q, by simpa using hq⟩, ?_⟩
  have h1 := congrArg World.fs hst.2
  simpa [hfs] using h1

/-- Witness for C4: the per-page stylesheet `/proj/pages/idx.css` is
missing. -/
theorem C4_witness :
    (∃ q, (handlePreviewFile ⟨some "/proj/pages/idx.html", none, none⟩
        ⟨true, true, true, true, true, true, true, true, true, true, true, 7, "r", "PNG"⟩
        ⟨⟨[("/proj/pages/idx.html", .file "<p>x</p>"), ("/proj/style.css", .file "b{}")]⟩,
          some 0, 1, 0⟩).2 = .error (.styleResource q)) ∧
    (handlePreviewFile ⟨some "/proj/pages/idx.html", none, none⟩
        ⟨true, true, true, true, true, true, true, true, true, true, true, 7, "r", "PNG"⟩
        ⟨⟨[("/proj/pages/idx.html", .file "<p>x</p>"), ("/proj/style.css", .file "b{}")]⟩,
          some 0, 1, 0⟩).1.fs =
      ⟨[("/proj/pages/idx.html", .file "<p>x</p>"), ("/proj/style.css", .file "b{}")]⟩ :=
  C4_style_missing "/proj/pages/idx.html" ⟨some "/proj/pages/idx.html", none, none⟩
    ⟨true, true, true, true, true, true, true, true, true, true, true, 7, "r", "PNG"⟩
    ⟨⟨[("/proj/pages/idx.html", .file "<p>x</p>"), ("/proj/style.css", .file "b{}")]⟩,
      some 0, 1, 0⟩
    (.file "<p>x</p>") rfl (by decide) (.inl (by decide)) rfl rfl rfl rfl rfl
    (.inr (by decide))

/-! ## Claim C9 -/

/-- The `try` block never produces the not-found error. -/
theorem previewTry_no_notfound (fp : String) (o : Oracle) (w : World) (q : String) :
    (previewTry fp o w).2 ≠ .error (.notFound q) := by
  unfold previewTry
  repeat' split
  all_goals simp

/-- Once the existence check passes, no later step of `previewFile`
produces the not-found error. -/
theorem preview_no_notfound (a : PvArgs) (o : Oracle) (w : World)
    (hex : existsSync w.fs a.filePath = true) (q : String) :
    (handlePreviewFile a o w).2 ≠ .error (.notFound q) := by
  unfold handlePreviewFile
  simp only [hex, Bool.true_eq_false, if_false]
  cases hbr : w.browser with
  | some h =>
    rw [initBrowser_some w o h hbr]
    dsimp only
    repeat' split
    all_goals simp_all [previewTry_no_notfound]
  | none =>
    unfold initBrowser
    rw [hbr]
    by_cases hl : o.launchOk = true
    · simp only [hl, if_true]
      repeat' split
      all_goals simp_all [previewTry_no_notfound]
    · have hl2 : o.launchOk = false := by
        revert hl
        cases o.launchOk <;> simp
      simp [hl2]

/-- C9: the existence check accepts any existing entry, not only regular
files — for a directory path the not-found branch is not taken:
`analyzeContent` fails at the file read with `EISDIR` (not the not-found
error), and `previewFile` never fails with the not-found error; when the
browser steps succeed and the derived per-page stylesheet path is the
directory itself, `previewFile` fails later at the style-loading step. -/
theorem C9_directory_input (p : String) (a : PvArgs) (o : Oracle) (w : World)
    (hfp : a.filePath = some p) (hdir : w.fs.lookup p = some .dir) :
    handleAnalyzeContent ⟨some p⟩ w = (w, .error (.readErr .eisdir)) ∧
    (∀ q, (handlePreviewFile a o w).2 ≠ .error (.notFound q)) ∧
    ((w.browser.isSome = true ∨ o.launchOk = true) → o.newPageOk = true →
      o.viewportOk = true → o.cspOk = true → o.headersOk = true → o.gotoOk = true →
      pageCssPath p = p →
      (∃ q, (handlePreviewFile a o w).2 = .error (.styleResource q)) ∧
      (handlePreviewFile a o w).1.fs = w.fs) := by
  have hex : existsSync w.fs (some p) = true := by
    simp [existsSync, hdir]
  have hex2 : existsSync w.fs a.filePath = true := by
    rw [hfp]
    exact hex
  refine ⟨?_, fun q => preview_no_notfound a o w hex2 q, ?_⟩
  · simp [handleAnalyzeContent, existsSync, hdir, readFileSync, optPathStr]
  · intro hb hnp hv hcsp hh hg hpc
    obtain ⟨w1, hfs, heq⟩ := preview_reaches_try p a o w hfp hex2 hb hnp hv
    have hcss : (∀ c, ({ w1 with openPages := w1.openPages + 1 } : World).fs.lookup
          (mainCssPath p) ≠ some (.file c)) ∨
        (∀ c, ({ w1 with openPages := w1.openPages + 1 } : World).fs.lookup
          (pageCssPath p) ≠ some (.file c)) := by
      right
      intro c
      rw [hpc]
      simp only [hfs, hdir]
      intro hc
      cases hc
    have hst := previewTry_style_fail p o _ hcsp hh hg hcss
    rw [heq]
    obtain ⟨q, hq⟩ := hst.1
    refine ⟨⟨q, by simpa using hq⟩, ?_⟩
    have h1 := congrArg World.fs hst.2
    simpa [hfs] using h1

/-- Witness for C9: `/w/data` is a directory; `analyzeContent` fails with
`EISDIR` and `previewFile` fails at style loading, not with not-found. -/
theorem C9_witness :
    handleAnalyzeContent ⟨some "/w/data"⟩ ⟨⟨[("/w/data", .dir)]⟩, some 0, 1, 0⟩ =
      (⟨⟨[("/w/data", .dir)]⟩, some 0, 1, 0⟩, .error (.readErr .eisdir)) ∧
    (handlePreviewFile ⟨some "/w/data", none, none⟩
        ⟨true, true, true, true, true, true, true, true, true, true, true, 3, "r", "P"⟩
        ⟨⟨[("/w/data", .dir)]⟩, some 0, 1, 0⟩).2 ≠ .error (.notFound "/w/data") ∧
    (∃ q, (handlePreviewFile ⟨some "/w/data", none, none⟩
        ⟨true, true, true, true, true, true, true, true, true, true, true, 3, "r", "P"⟩
        ⟨⟨[("/w/data", .dir)]⟩, some 0, 1, 0⟩).2 = .error (.styleResource q)) := by
  have t := C9_directory_input "/w/data" ⟨some "/w/data", none, none⟩
    ⟨true, true, true, true, true, true, true, true, true, true, true, 3, "r", "P"⟩
    ⟨⟨[("/w/data", .dir)]⟩, some 0, 1, 0⟩ rfl (by decide)
  exact ⟨t.1, t.2.1 "/w/data",
    (t.2.2 (.inl (by decide)) rfl rfl rfl rfl rfl (by decide)).1⟩

/-! ## Claim C10 -/

/-- Inserting binds the inserted path. -/
theorem FS.lookup_insert (fs : FS) (p : String) (e : Entry) :
    (fs.insert p e).lookup p = some e := by
  simp [FS.insert, FS.lookup, List.find?_cons]

/-- Finding a key distinct from `p` ignores entries removed at `p`. -/
theorem find_filter_ne (p q : String) (hne : q ≠ p) (l : List (String × Entry)) :
    List.find? (fun x => x.1 = q) (l.filter (fun x => x.1 ≠ p)) =
      List.find? (fun x => x.1 = q) l := by
  induction l with
  | nil => rfl
  | cons y l ih =>
    by_cases hy : y.1 = p
    · have h2 : ¬ y.1 = q := fun h => hne (h ▸ hy)
      rw [List.filter_cons_of_neg (by simpa using hy),
        List.find?_cons_of_neg _ (by simpa using h2), ih]
    · rw [List.filter_cons_of_pos (by simpa using hy)]
      by_cases h2 : y.1 = q
      · rw [List.find?_cons_of_pos _ (by simpa using h2),
          List.find?_cons_of_pos _ (by simpa using h2)]
      · rw [List.find?_cons_of_neg _ (by simpa using h2),
          List.find?_cons_of_neg _ (by simpa using h2), ih]

/-- Inserting leaves every other path unchanged. -/
theorem FS.lookup_insert_ne (fs : FS) (p q : String) (e : Entry) (hne : q ≠ p) :
    (fs.insert p e).lookup q = fs.lookup q := by
  have h1 : ¬ ((p, e).1 = q) := fun h => hne h.symm
  unfold FS.insert FS.lookup
  rw [List.find?_cons_of_neg _ (by simpa using h1), find_filter_ne p q hne]

/-- A successful run of the `try` block: the returned screenshot path is
the derived one, and the filesystem afterwards is the one before with the
screenshots directory ensured and the screenshot file written. -/
theorem previewTry_success (fp : String) (o : Oracle) (w : World) (res : PvResult)
    (hok : (previewTry fp o w).2 = .ok res) :
    res.screenshotPath = screenshotPathOf fp o.now ∧
    (previewTry fp o w).1.fs =
      ((if existsSync w.fs (some screenshotsDir) then w.fs
        else w.fs.insert screenshotsDir .dir).insert (screenshotPathOf fp o.now)
        (.file o.shot)) := by
  unfold previewTry at hok ⊢
  by_cases h1 : o.cspOk = false
  · rw [if_pos h1] at hok
    cases hok
  rw [if_neg h1] at hok ⊢
  by_cases h2 : o.headersOk = false
  · rw [if_pos h2] at hok
    cases hok
  rw [if_neg h2] at hok ⊢
  by_cases h3 : o.gotoOk = false
  · rw [if_pos h3] at hok
    cases hok
  rw [if_neg h3] at hok ⊢
  rcases hm : readFileSync w.fs (mainCssPath fp) with e | c
  · rw [hm] at hok
    dsimp only at hok
    cases hok
  rw [hm] at hok
  dsimp only at hok ⊢
  rcases hp : readFileSync w.fs (pageCssPath fp) with e | c2
  · rw [hp] at hok
    dsimp only at hok
    cases hok
  rw [hp] at hok
  dsimp only at hok ⊢
  by_cases h4 : o.addStyle1Ok = false
  · rw [if_pos h4] at hok
    cases hok
  rw [if_neg h4] at hok ⊢
  by_cases h5 : o.addStyle2Ok = false
  · rw [if_pos h5] at hok
    cases hok
  rw [if_neg h5] at hok ⊢
  by_cases h6 : o.evalOk = false
  · rw [if_pos h6] at hok
    cases hok
  rw [if_neg h6] at hok ⊢
  try dsimp only at hok ⊢
  by_cases h7 : o.screenshotOk = false
  · rw [if_pos h7] at hok
    cases hok
  rw [if_neg h7] at hok ⊢
  by_cases h8 : o.contentOk = false
  · rw [if_pos h8] at hok
    cases hok
  rw [if_neg h8] at hok ⊢
  have hres : res = { screenshotPath := screenshotPathOf fp o.now, content := o.rendered } := by
    cases hok
    rfl
  subst hres
  refine ⟨rfl, ?_⟩
  by_cases hsd : existsSync w.fs (some screenshotsDir) = true
  · simp [hsd]
  · simp [hsd]

/-- C10: a successful `previewFile` call writes only the screenshots
directory entry (when absent) and the one screenshot file at the derived
path; every other path — in particular the input document and both
stylesheets — has exactly the entry it had before the call. -/
theorem C10_success_writes (fp : String) (a : PvArgs) (o : Oracle) (w : World)
    (res : PvResult) (hfp : a.filePath = some fp)
    (hok : (handlePreviewFile a o w).2 = .ok res) :
    res.screenshotPath = screenshotPathOf fp o.now ∧
    (handlePreviewFile a o w).1.fs.lookup (screenshotPathOf fp o.now) =
      some (.file o.shot) ∧
    (∀ p, p ≠ screenshotsDir → p ≠ screenshotPathOf fp o.now →
      (handlePreviewFile a o w).1.fs.lookup p = w.fs.lookup p) := by
  have hex : existsSync w.fs a.filePath = true := by
    by_contra hx
    have hx2 : existsSync w.fs a.filePath = false := by
      revert hx
      cases existsSync w.fs a.filePath <;> simp
    unfold handlePreviewFile at hok
    rw [hx2] at hok
    cases hok
  have hb : w.browser.isSome = true ∨ o.launchOk = true := by
    cases hbr : w.browser with
    | some h => exact .inl (by simp [hbr])
    | none =>
      by_cases hl : o.launchOk = true
      · exact .inr hl
      · exfalso
        have hl2 : o.launchOk = false := by
          revert hl
          cases o.launchOk <;> simp
        unfold handlePreviewFile initBrowser at hok
        rw [hbr] at hok
        simp [hex, hl2] at hok
  have hnp : o.newPageOk = true := by
    by_contra hx
    have hx2 : o.newPageOk = false := by
      revert hx
      cases o.newPageOk <;> simp
    unfold handlePreviewFile at hok
    simp only [hex, Bool.true_eq_false, if_false] at hok
    rcases hr : initBrowser w o with ⟨w1, rb⟩
    rw [hr] at hok
    cases rb with
    | error e => cases hok
    | ok n =>
      dsimp only at hok
      rw [if_pos hx2] at hok
      cases hok
  have hv : o.viewportOk = true := by
    by_contra hx
    have hx2 : o.viewportOk = false := by
      revert hx
      cases o.viewportOk <;> simp
    unfold handlePreviewFile at hok
    simp only [hex, Bool.true_eq_false, if_false] at hok
    rcases hr : initBrowser w o with ⟨w1, rb⟩
    rw [hr] at hok
    cases rb with
    | error e => cases hok
    | ok n =>
      dsimp only at hok
      rw [if_neg (by simp [hnp]), if_pos hx2] at hok
      cases hok
  obtain ⟨w1, hfs, heq⟩ := preview_reaches_try fp a o w hfp hex hb hnp hv
  rw [heq] at hok
  dsimp only at hok
  have hts := previewTry_success fp o { w1 with openPages := w1.openPages + 1 } res hok
  dsimp only at hts
  refine ⟨hts.1, ?_, ?_⟩
  · rw [heq]
    dsimp only
    rw [hts.2]
    exact FS.lookup_insert _ _ _
  · intro p hp1 hp2
    rw [heq]
    dsimp only
    rw [hts.2, FS.lookup_insert_ne _ _ _ _ hp2, ← hfs]
    by_cases hsd : existsSync w1.fs (some screenshotsDir) = true
    · rw [if_pos hsd]
    · rw [if_neg hsd]
      exact FS.lookup_insert_ne _ _ _ _ hp1

/-- Witness for C10: a complete successful run; the screenshot file appears
at the derived path and the input document's entry is untouched. -/
theorem C10_witness :
    (handlePreviewFile ⟨some "/proj/pages/idx.html", none, none⟩
        ⟨true, true, true, true, true, true, true, true, true, true, true, 111,
          "<html>r</html>", "PNG"⟩
        ⟨⟨[("/proj/pages/idx.html", .file "<h1>t</h1>"), ("/proj/style.css", .file "body{}"),
            ("/proj/pages/idx.css", .file "h1{}")]⟩, some 0, 1, 0⟩).1.fs.lookup
      (screenshotPathOf "/proj/pages/idx.html" 111) = some (.file "PNG") ∧
    (handlePreviewFile ⟨some "/proj/pages/idx.html", none, none⟩
        ⟨true, true, true, true, true, true, true, true, true, true, true, 111,
          "<html>r</html>", "PNG"⟩
        ⟨⟨[("/proj/pages/idx.html", .file "<h1>t</h1>"), ("/proj/style.css", .file "body{}"),
            ("/proj/pages/idx.css", .file "h1{}")]⟩, some 0, 1, 0⟩).1.fs.lookup
      "/proj/pages/idx.html" = some (.file "<h1>t</h1>") := by
  have t := C10_success_writes "/proj/pages/idx.html"
    ⟨some "/proj/pages/idx.html", none, none⟩
    ⟨true, true, true, true, true, true, true, true, true, true, true, 111,
      "<html>r</html>", "PNG"⟩
    ⟨⟨[("/proj/pages/idx.html", .file "<h1>t</h1>"), ("/proj/style.css", .file "body{}"),
        ("/proj/pages/idx.css", .file "h1{}")]⟩, some 0, 1, 0⟩
    ⟨"/Users/seanivore/Documents/Cline/MCP/mcp-file-preview/screenshots/idx_111.png",
      "<html>r</html>"⟩
    rfl (by decide)
  refine ⟨t.2.1, ?_⟩
  rw [t.2.2 "/proj/pages/idx.html" (by decide) (by decide)]
  decide

/-! ## Path-derivation lemmas (C6) -/

/-- Appending a final segment to a non-empty segment list appends
`'/' :: name` to the rendered core. -/
theorem inter_append_single (dir : List (List Char)) (name : List Char)
    (hd : dir ≠ []) :
    intercalateSlash (dir ++ [name]) = intercalateSlash dir ++ '/' :: name := by
  induction dir with
  | nil => cases hd rfl
  | cons d rest ih =>
    cases rest with
    | nil => rfl
    | cons d2 rest2 =>
      have h2 : d2 :: rest2 ≠ [] := by simp
      show d ++ '/' :: intercalateSlash ((d2 :: rest2) ++ [name]) = _
      rw [ih h2]
      simp [intercalateSlash]

/-- The rendered core of a non-empty segment list with a non-empty head is
non-empty. -/
theorem inter_ne_nil (d : List Char) (rest : List (List Char)) (hd : d ≠ []) :
    intercalateSlash (d :: rest) ≠ [] := by
  cases rest with
  | nil => simpa [intercalateSlash] using hd
  | cons d2 rest2 =>
    show d ++ '/' :: intercalateSlash (d2 :: rest2) ≠ []
    simp

/-- Splitting a separator-free string yields that single segment. -/
theorem splitSlash_noslash (s : List Char) (hs : ¬ '/' ∈ s) : splitSlash s = [s] := by
  induction s with
  | nil => rfl
  | cons c rest ih =>
    have hc : ¬ c = '/' := fun h => hs (h ▸ List.mem_cons_self c rest)
    have hr : ¬ '/' ∈ rest := fun h => hs (List.mem_cons_of_mem c h)
    rw [splitSlash, if_neg hc, ih hr]

/-- Splitting at an explicit separator splits the parts. -/
theorem splitSlash_append (A B : List Char) (hA : ¬ '/' ∈ A) :
    splitSlash (A ++ '/' :: B) = A :: splitSlash B := by
  induction A with
  | nil =>
    show splitSlash ('/' :: B) = [] :: splitSlash B
    rw [splitSlash, if_pos rfl]
  | cons a A2 ih =>
    have ha : ¬ a = '/' := fun h => hA (h ▸ List.mem_cons_self a A2)
    have hA2 : ¬ '/' ∈ A2 := fun h => hA (List.mem_cons_of_mem a h)
    show splitSlash (a :: (A2 ++ '/' :: B)) = (a :: A2) :: splitSlash B
    rw [splitSlash, if_neg ha, ih hA2]

/-- `splitSlash` inverts `intercalateSlash` on separator-free segments. -/
theorem splitSlash_inter (segs : List (List Char)) (hne : segs ≠ [])
    (hs : ∀ s ∈ segs, ¬ '/' ∈ s) :
    splitSlash (intercalateSlash segs) = segs := by
  induction segs with
  | nil => cases hne rfl
  | cons s rest ih =>
    cases rest with
    | nil => exact splitSlash_noslash s (hs s (List.mem_cons_self s []))
    | cons s2 rest2 =>
      show splitSlash (s ++ '/' :: intercalateSlash (s2 :: rest2)) = _
      rw [splitSlash_append _ _ (hs s (List.mem_cons_self s _)),
        ih (by simp) (fun t ht => hs t (List.mem_cons_of_mem s ht))]

/-- Ordinary segments are pushed onto the normalization stack unchanged. -/
theorem normSegs_push (ab : Bool) (cl : List (List Char))
    (hcl : ∀ s ∈ cl, s ≠ [] ∧ s ≠ ['.'] ∧ s ≠ ['.', '.']) :
    ∀ (stack rest : List (List Char)),
      normSegs ab stack (cl ++ rest) = normSegs ab (cl.reverse ++ stack) rest := by
  induction cl with
  | nil => intro stack rest; rfl
  | cons s cl2 ih =>
    intro stack rest
    obtain ⟨h1, h2, h3⟩ := hcl s (List.mem_cons_self s cl2)
    show normSegs ab stack (s :: (cl2 ++ rest)) = _
    simp only [normSegs]
    rw [if_neg (by simp [h1, h2]), if_neg h3,
      ih (fun t ht => hcl t (List.mem_cons_of_mem s ht)) (s :: stack) rest]
    simp

/-- Rendering an absolute segment list. -/
theorem renderParts_abs (parts : List (List Char)) :
    renderParts true parts = '/' :: intercalateSlash parts := rfl

/-- Strings built from non-empty lists are non-empty. -/
theorem mk_ne_empty (l : List Char) (h : l ≠ []) : String.mk l ≠ "" := by
  intro he
  apply h
  have h2 := congrArg String.data he
  exact h2.trans rfl

/-- `path.join` on two non-empty parts: concatenate with `'/'` and
normalize. -/
theorem joinList_two (a b : String) (ha : a ≠ "") (hb : b ≠ "") :
    join2 a b =
      String.mk (renderParts (decide ((a.toList ++ '/' :: b.toList).head? = some '/'))
        (normSegs (decide ((a.toList ++ '/' :: b.toList).head? = some '/')) []
          (splitSlash (a.toList ++ '/' :: b.toList)))) := by
  unfold join2 joinList
  rw [List.filter_cons_of_pos (by simpa using ha),
    List.filter_cons_of_pos (by simpa using hb), List.filter_nil]
  rfl

/-- `path.join` on three non-empty parts. -/
theorem joinList_three (a b c : String) (ha : a ≠ "") (hb : b ≠ "") (hc : c ≠ "") :
    join3 a b c =
      String.mk (renderParts
        (decide ((a.toList ++ '/' :: (b.toList ++ '/' :: c.toList)).head? = some '/'))
        (normSegs
          (decide ((a.toList ++ '/' :: (b.toList ++ '/' :: c.toList)).head? = some '/')) []
          (splitSlash (a.toList ++ '/' :: (b.toList ++ '/' :: c.toList))))) := by
  unfold join3 joinList
  rw [List.filter_cons_of_pos (by simpa using ha),
    List.filter_cons_of_pos (by simpa using hb),
    List.filter_cons_of_pos (by simpa using hc), List.filter_nil]
  rfl

/-- Joining a clean segment onto a rendered absolute directory appends
that segment. -/
theorem join2_abs (dir : List (List Char)) (seg : List Char)
    (hd : dir ≠ []) (hds : ∀ s ∈ dir, segOK s)
    (h1 : seg ≠ []) (h2 : ¬ '/' ∈ seg) (h3 : seg ≠ ['.']) (h4 : seg ≠ ['.', '.']) :
    join2 (renderAbs dir) (String.mk seg) = renderAbs (dir ++ [seg]) := by
  obtain ⟨d, drest, rfl⟩ := List.exists_cons_of_ne_nil hd
  have hdOK := hds d (List.mem_cons_self d drest)
  have hra : renderAbs (d :: drest) ≠ "" := mk_ne_empty _ (by simp)
  have hsb : String.mk seg ≠ "" := mk_ne_empty _ h1
  rw [joinList_two _ _ hra hsb]
  have htl : (renderAbs (d :: drest)).toList = '/' :: intercalateSlash (d :: drest) := rfl
  have htl2 : (String.mk seg).toList = seg := rfl
  rw [htl, htl2]
  have hjoined : ('/' :: intercalateSlash (d :: drest)) ++ '/' :: seg =
      '/' :: intercalateSlash ((d :: drest) ++ [seg]) := by
    rw [inter_append_single _ _ (by simp)]
    rfl
  rw [hjoined]
  have habs : (decide (('/' :: intercalateSlash ((d :: drest) ++ [seg])).head? =
      some '/')) = true := by simp
  rw [habs]
  have hnos : ∀ s ∈ (d :: drest) ++ [seg], ¬ '/' ∈ s := by
    intro s hs
    rcases List.mem_append.mp hs with hs | hs
    · exact (hds s hs).2.1
    · rw [List.mem_singleton.mp hs]
      exact h2
  have hsplit : splitSlash ('/' :: intercalateSlash ((d :: drest) ++ [seg])) =
      [] :: ((d :: drest) ++ [seg]) := by
    rw [splitSlash, if_pos rfl, splitSlash_inter _ (by simp) hnos]
  rw [hsplit]
  have hclean : ∀ s ∈ (d :: drest) ++ [seg],
      s ≠ [] ∧ s ≠ ['.'] ∧ s ≠ ['.', '.'] := by
    intro s hs
    rcases List.mem_append.mp hs with hs | hs
    · obtain ⟨a1, _, a3, a4⟩ := hds s hs
      exact ⟨a1, a3, a4⟩
    · rw [List.mem_singleton.mp hs]
      exact ⟨h1, h3, h4⟩
  have hdclean : ∀ s ∈ d :: drest, s ≠ [] ∧ s ≠ ['.'] ∧ s ≠ ['.', '.'] := by
    intro s hs
    obtain ⟨a1, _, a3, a4⟩ := hds s hs
    exact ⟨a1, a3, a4⟩
  have hnorm : normSegs true [] ([] :: ((d :: drest) ++ [seg])) =
      (d :: drest) ++ [seg] := by
    have hstep : normSegs true [] ([] :: ((d :: drest) ++ [seg])) =
        normSegs true [] ((d :: drest) ++ [seg]) := rfl
    rw [hstep, normSegs_push true (d :: drest) hdclean [] [seg]]
    simp only [normSegs]
    rw [if_neg (by simp [h1, h3]), if_neg h4]
    simp
  rw [hnorm, renderParts_abs]
  rfl

/-- Joining `".."` then `"style.css"` onto a rendered absolute directory
pops its last segment and appends `style.css`. -/
theorem join3_parent (dir : List (List Char)) (hd : dir ≠ [])
    (hds : ∀ s ∈ dir, segOK s) :
    join3 (renderAbs dir) ".." "style.css" =
      renderAbs (dir.dropLast ++ [String.toList "style.css"]) := by
  obtain ⟨d, drest, rfl⟩ := List.exists_cons_of_ne_nil hd
  have hra : renderAbs (d :: drest) ≠ "" := mk_ne_empty _ (by simp)
  rw [joinList_three _ _ _ hra (by decide) (by decide)]
  have hdclean : ∀ s ∈ d :: drest, s ≠ [] ∧ s ≠ ['.'] ∧ s ≠ ['.', '.'] := by
    intro s hs
    obtain ⟨a1, _, a3, a4⟩ := hds s hs
    exact ⟨a1, a3, a4⟩
  have e1 : intercalateSlash ((d :: drest) ++ [['.', '.'], String.toList "style.css"]) =
      (intercalateSlash (d :: drest) ++ '/' :: ['.', '.']) ++
        '/' :: String.toList "style.css" := by
    have e0 : (d :: drest) ++ [['.', '.'], String.toList "style.css"] =
        ((d :: drest) ++ [['.', '.']]) ++ [String.toList "style.css"] := by simp
    rw [e0, inter_append_single _ _ (by simp), inter_append_single _ _ (by simp)]
  have hj : ((renderAbs (d :: drest)).toList ++
        '/' :: ((".." : String).toList ++ '/' :: ("style.css" : String).toList)) =
      '/' :: intercalateSlash ((d :: drest) ++ [['.', '.'], String.toList "style.css"]) := by
    show ('/' :: intercalateSlash (d :: drest)) ++
        '/' :: (['.', '.'] ++ '/' :: String.toList "style.css") = _
    rw [e1]
    simp
  rw [hj]
  have habs : (decide (('/' :: intercalateSlash ((d :: drest) ++
      [['.', '.'], String.toList "style.css"])).head? = some '/')) = true := by simp
  rw [habs]
  have hnos : ∀ s ∈ (d :: drest) ++ [['.', '.'], String.toList "style.css"],
      ¬ '/' ∈ s := by
    intro s hs
    rcases List.mem_append.mp hs with hs | hs
    · exact (hds s hs).2.1
    · rcases List.mem_cons.mp hs with h | h
      · subst h
        decide
      · rw [List.mem_singleton.mp h]
        decide
  have hsplit : splitSlash ('/' :: intercalateSlash ((d :: drest) ++
      [['.', '.'], String.toList "style.css"])) =
      [] :: ((d :: drest) ++ [['.', '.'], String.toList "style.css"]) := by
    rw [splitSlash, if_pos rfl, splitSlash_inter _ (by simp) hnos]
  rw [hsplit]
  have hstep : normSegs true []
      ([] :: ((d :: drest) ++ [['.', '.'], String.toList "style.css"])) =
      normSegs true [] ((d :: drest) ++ [['.', '.'], String.toList "style.css"]) := rfl
  have hlastne : (d :: drest).getLast (by simp) ≠ ['.', '.'] :=
    (hds _ (List.getLast_mem (by simp))).2.2.2
  have hrev : (d :: drest).reverse =
      (d :: drest).getLast (by simp) :: (d :: drest).dropLast.reverse := by
    conv_lhs => rw [← List.dropLast_append_getLast (l := d :: drest) (by simp)]
    rw [List.reverse_append]
    rfl
  have h2step : normSegs true
      ((d :: drest).getLast (by simp) :: (d :: drest).dropLast.reverse)
      (['.', '.'] :: [String.toList "style.css"]) =
      if (d :: drest).getLast (by simp) = ['.', '.'] then
        normSegs true (['.', '.'] :: (d :: drest).getLast (by simp) ::
          (d :: drest).dropLast.reverse) [String.toList "style.css"]
      else normSegs true ((d :: drest).dropLast.reverse)
        [String.toList "style.css"] := rfl
  have h3step : normSegs true ((d :: drest).dropLast.reverse)
      [String.toList "style.css"] =
      (String.toList "style.css" :: (d :: drest).dropLast.reverse).reverse := rfl
  have hnorm : normSegs true []
      ([] :: ((d :: drest) ++ [['.', '.'], String.toList "style.css"])) =
      (d :: drest).dropLast ++ [String.toList "style.css"] := by
    rw [hstep, normSegs_push true (d :: drest) hdclean []
      [['.', '.'], String.toList "style.css"], List.append_nil, hrev, h2step,
      if_neg hlastne, h3step]
    simp
  rw [hnorm, renderParts_abs]
  rfl

/-- Dropping a satisfied prefix. -/
theorem dropWhile_append_of_pos {p : Char → Bool} (A B : List Char)
    (hA : ∀ a ∈ A, p a = true) :
    List.dropWhile p (A ++ B) = List.dropWhile p B := by
  induction A with
  | nil => rfl
  | cons a A2 ih =>
    rw [List.cons_append, List.dropWhile_cons_of_pos (hA a (List.mem_cons_self a A2)),
      ih (fun x hx => hA x (List.mem_cons_of_mem a hx))]

/-- Taking a satisfied prefix up to a failing element. -/
theorem takeWhile_append_of_stop {p : Char → Bool} (A B : List Char) (b : Char)
    (hA : ∀ a ∈ A, p a = true) (hb : p b = false) :
    List.takeWhile p (A ++ b :: B) = A := by
  induction A with
  | nil => exact List.takeWhile_cons_of_neg (by simp [hb])
  | cons a A2 ih =>
    rw [List.cons_append, List.takeWhile_cons_of_pos (hA a (List.mem_cons_self a A2)),
      ih (fun x hx => hA x (List.mem_cons_of_mem a hx))]

/-- `path.basename` of a rendered absolute path is its final segment. -/
theorem basename_render (dir : List (List Char)) (name : List Char) (hd : dir ≠ [])
    (hn1 : name ≠ []) (hn2 : ¬ '/' ∈ name) :
    basenameStr (renderAbs (dir ++ [name])) = String.mk name := by
  unfold basenameStr
  dsimp only
  have htl : (renderAbs (dir ++ [name])).toList =
      '/' :: (intercalateSlash dir ++ '/' :: name) := by
    show '/' :: intercalateSlash (dir ++ [name]) = _
    rw [inter_append_single dir name hd]
  rw [htl]
  have hrev : ('/' :: (intercalateSlash dir ++ '/' :: name)).reverse =
      name.reverse ++ '/' :: ((intercalateSlash dir).reverse ++ ['/']) := by
    rw [List.reverse_cons, List.reverse_append, List.reverse_cons]
    simp
  rw [hrev]
  have hmemrev : ∀ a ∈ name.reverse, ¬ a = '/' :=
    fun a ha h => hn2 (h ▸ List.mem_reverse.mp ha)
  cases hnr : name.reverse with
  | nil => exact absurd (by simpa using congrArg List.reverse hnr) hn1
  | cons c0 cs =>
    have hc0 : ¬ c0 = '/' := hmemrev c0 (hnr ▸ List.mem_cons_self c0 cs)
    have hcs : ∀ a ∈ cs, (fun c => decide (c ≠ '/')) a = true := fun a ha => by
      simpa using hmemrev a (hnr ▸ List.mem_cons_of_mem c0 ha)
    have e2 : List.dropWhile (fun c => decide (c = '/'))
        ((c0 :: cs) ++ '/' :: ((intercalateSlash dir).reverse ++ ['/'])) =
        (c0 :: cs) ++ '/' :: ((intercalateSlash dir).reverse ++ ['/']) := by
      rw [List.cons_append]
      exact List.dropWhile_cons_of_neg (by simpa using hc0)
    have e3 : List.takeWhile (fun c => decide (c ≠ '/'))
        ((c0 :: cs) ++ '/' :: ((intercalateSlash dir).reverse ++ ['/'])) =
        c0 :: cs := by
      rw [List.cons_append, List.takeWhile_cons_of_pos (by simpa using hc0),
        takeWhile_append_of_stop _ _ _ hcs (by simp)]
    rw [e2, e3, ← hnr]
    simp

/-- `path.dirname` of a rendered absolute path is its directory. -/
theorem dirname_render (dir : List (List Char)) (name : List Char) (hd : dir ≠ [])
    (hds : ∀ s ∈ dir, segOK s) (hn1 : name ≠ []) (hn2 : ¬ '/' ∈ name) :
    dirname (renderAbs (dir ++ [name])) = renderAbs dir := by
  obtain ⟨d, drest, rfl⟩ := List.exists_cons_of_ne_nil hd
  unfold dirname
  dsimp only
  have htl : (renderAbs ((d :: drest) ++ [name])).toList =
      '/' :: (intercalateSlash (d :: drest) ++ '/' :: name) := by
    show '/' :: intercalateSlash ((d :: drest) ++ [name]) = _
    rw [inter_append_single _ name (by simp)]
  rw [htl]
  rw [if_neg (by simp)]
  have hrev : ('/' :: (intercalateSlash (d :: drest) ++ '/' :: name)).reverse =
      name.reverse ++ '/' :: ((intercalateSlash (d :: drest)).reverse ++ ['/']) := by
    rw [List.reverse_cons, List.reverse_append, List.reverse_cons]
    simp
  rw [hrev]
  have hmemrev : ∀ a ∈ name.reverse, ¬ a = '/' :=
    fun a ha h => hn2 (h ▸ List.mem_reverse.mp ha)
  cases hnr : name.reverse with
  | nil => exact absurd (by simpa using congrArg List.reverse hnr) hn1
  | cons c0 cs =>
    have hc0 : ¬ c0 = '/' := hmemrev c0 (hnr ▸ List.mem_cons_self c0 cs)
    have hcs : ∀ a ∈ cs, (fun c => decide (c ≠ '/')) a = true := fun a ha => by
      simpa using hmemrev a (hnr ▸ List.mem_cons_of_mem c0 ha)
    have e2 : List.dropWhile (fun c => decide (c = '/'))
        ((c0 :: cs) ++ '/' :: ((intercalateSlash (d :: drest)).reverse ++ ['/'])) =
        (c0 :: cs) ++ '/' :: ((intercalateSlash (d :: drest)).reverse ++ ['/']) := by
      rw [List.cons_append]
      exact List.dropWhile_cons_of_neg (by simpa using hc0)
    have e4 : List.dropWhile (fun c => decide (c ≠ '/'))
        ((c0 :: cs) ++ '/' :: ((intercalateSlash (d :: drest)).reverse ++ ['/'])) =
        '/' :: ((intercalateSlash (d :: drest)).reverse ++ ['/']) := by
      rw [List.cons_append, List.dropWhile_cons_of_pos (by simpa using hc0),
        dropWhile_append_of_pos _ _ hcs]
      exact List.dropWhile_cons_of_neg (by simp)
    rw [e2, e4]
    dsimp only
    have hiner : intercalateSlash (d :: drest) ≠ [] :=
      inter_ne_nil d drest (hds d (List.mem_cons_self d drest)).1
    rw [if_neg (by simp), if_neg ?hlen]
    case hlen =>
      intro hcon
      have hlen := hcon.2
      rw [List.length_append, List.length_reverse] at hlen
      simp at hlen
      exact hiner hlen
    rw [List.reverse_append, List.reverse_reverse]
    rfl

/-- A successful literal drop decomposes the input. -/
theorem dropLit_eq (pat : List Char) : ∀ l r, dropLit pat l = some r → l = pat ++ r := by
  induction pat with
  | nil =>
    intro l r h
    simpa using Option.some.inj h
  | cons p ps ih =>
    intro l r h
    cases l with
    | nil => cases h
    | cons c cs =>
      by_cases hpc : p = c
      · rw [dropLit, if_pos hpc] at h
        subst hpc
        exact congrArg (List.cons p) (ih cs r h)
      · rw [dropLit, if_neg hpc] at h
        cases h

/-- `String.prototype.replace` either leaves the input unchanged or splices
the replacement in place of one occurrence of the pattern. -/
theorem replFirst_cases (pat rep : List Char) : ∀ l,
    replFirstAux pat rep l = l ∨
    ∃ pre after, replFirstAux pat rep l = pre ++ rep ++ after ∧
      l = pre ++ pat ++ after := by
  intro l
  induction l with
  | nil => exact .inl rfl
  | cons c rest ih =>
    cases hdl : dropLit pat (c :: rest) with
    | some after =>
      right
      refine ⟨[], after, by simp [replFirstAux, hdl], ?_⟩
      simpa using dropLit_eq pat (c :: rest) after hdl
    | none =>
      rcases ih with ih | ⟨pre, after, h1, h2⟩
      · exact .inl (by simp [replFirstAux, hdl, ih])
      · exact .inr ⟨c :: pre, after, by simp [replFirstAux, hdl, h1],
          by simp [h2]⟩

/-- Replacing `.html` by `.css` keeps a segment well formed. -/
theorem replFirst_segOK (name : List Char) (hn : segOK name) :
    segOK (replFirstAux (String.toList ".html") (String.toList ".css") name) := by
  rcases replFirst_cases (String.toList ".html") (String.toList ".css") name with
    h | ⟨pre, after, h1, h2⟩
  · rw [h]
    exact hn
  · rw [h1]
    obtain ⟨g1, g2, g3, g4⟩ := hn
    have hreplen : (String.toList ".css").length = 4 := rfl
    refine ⟨?_, ?_, ?_, ?_⟩
    · intro hc
      rw [List.append_assoc, List.append_eq_nil] at hc
      have := hc.2
      rw [List.append_eq_nil] at this
      cases this.1
    · intro hmem
      rcases List.mem_append.mp hmem with hmem | hmem
      · rcases List.mem_append.mp hmem with hmem | hmem
        · exact g2 (by rw [h2, List.append_assoc]; exact List.mem_append_left _ hmem)
        · exact absurd hmem (by decide)
      · exact g2 (by rw [h2]; exact List.mem_append_right _ hmem)
    · intro hc
      have hlen := congrArg List.length hc
      simp only [List.length_append, hreplen, List.length_cons,
        List.length_nil] at hlen
      omega
    · intro hc
      have hlen := congrArg List.length hc
      simp only [List.length_append, hreplen, List.length_cons,
        List.length_nil] at hlen
      omega

/-- The handler's replace call in list form. -/
theorem jsReplaceFirst_toList (name : List Char) :
    (jsReplaceFirst (String.mk name) ".html" ".css").toList =
      replFirstAux (String.toList ".html") (String.toList ".css") name := rfl

/-! ## Claim C6 -/

/-- C6 (counterexample): for the basename `a.html.html` the source replaces
the FIRST occurrence of the substring `.html`, deriving `a.css.html`,
whereas replacing the `.html` extension as the claim states would derive
`a.html.css`. -/
theorem C6_counterexample :
    pageCssPath "/proj/pages/a.html.html" = "/proj/pages/a.css.html" ∧
    specPageCssPath "/proj/pages/a.html.html" = "/proj/pages/a.html.css" ∧
    pageCssPath "/proj/pages/a.html.html" ≠
      specPageCssPath "/proj/pages/a.html.html" :=
  ⟨by decide, by decide, by decide⟩

/-- C6 (amended): for every well-formed absolute input path, `previewFile`
derives the per-page stylesheet path by replacing the first occurrence of
the substring `.html` in the target's basename with `.css` while keeping
the same directory, and derives the shared stylesheet path as the file
named `style.css` in the directory one level above the target file; both
derived files are then read and injected. -/
theorem C6_derived_paths (dir : List (List Char)) (name : List Char)
    (hd : dir ≠ []) (hds : ∀ s ∈ dir, segOK s) (hn : segOK name) :
    pageCssPath (renderAbs (dir ++ [name])) =
      renderAbs (dir ++ [(jsReplaceFirst (String.mk name) ".html" ".css").toList]) ∧
    mainCssPath (renderAbs (dir ++ [name])) =
      renderAbs (dir.dropLast ++ [String.toList "style.css"]) := by
  obtain ⟨hn1, hn2, hn3, hn4⟩ := hn
  have hbn := basename_render dir name hd hn1 hn2
  have hdn := dirname_render dir name hd hds hn1 hn2
  constructor
  · unfold pageCssPath
    rw [hdn, hbn, jsReplaceFirst_toList]
    obtain ⟨k1, k2, k3, k4⟩ := replFirst_segOK name ⟨hn1, hn2, hn3, hn4⟩
    have hjs : jsReplaceFirst (String.mk name) ".html" ".css" =
        String.mk (replFirstAux (String.toList ".html")
          (String.toList ".css") name) := rfl
    rw [hjs]
    exact join2_abs dir _ hd hds k1 k2 k3 k4
  · unfold mainCssPath
    rw [hdn]
    exact join3_parent dir hd hds

/-- Witness for C6 at `/proj/pages/idx.html`: the derived per-page
stylesheet is `/proj/pages/idx.css` and the shared stylesheet is
`/proj/style.css`. -/
theorem C6_witness :
    pageCssPath (renderAbs [String.toList "proj", String.toList "pages",
        String.toList "idx.html"]) =
      renderAbs [String.toList "proj", String.toList "pages",
        String.toList "idx.css"] ∧
    mainCssPath (renderAbs [String.toList "proj", String.toList "pages",
        String.toList "idx.html"]) =
      renderAbs [String.toList "proj", String.toList "style.css"] := by
  have t := C6_derived_paths [String.toList "proj", String.toList "pages"]
    (String.toList "idx.html") (by decide) (by decide) (by decide)
  constructor
  · have h := t.1
    rw [show (jsReplaceFirst (String.mk (String.toList "idx.html"))
        ".html" ".css").toList = String.toList "idx.css" from by decide] at h
    exact h
  · exact t.2

/-- Witness for C5: with viewport setup succeeding, a full call leaves no
page open and keeps the browser handle. -/
theorem C5_witness :
    (handlePreviewFile ⟨some "/a/b.html", none, none⟩
        ⟨true, true, true, true, true, true, true, true, true, true, true, 9, "r", "P"⟩
        ⟨⟨[("/a/b.html", .file "x")]⟩, some 4, 5, 0⟩).1.openPages = 0 ∧
    (handlePreviewFile ⟨some "/a/b.html", none, none⟩
        ⟨true, true, true, true, true, true, true, true, true, true, true, 9, "r", "P"⟩
        ⟨⟨[("/a/b.html", .file "x")]⟩, some 4, 5, 0⟩).1.browser = some 4 := by
  have t := C5_page_cleanup ⟨some "/a/b.html", none, none⟩
    ⟨true, true, true, true, true, true, true, true, true, true, true, 9, "r", "P"⟩
    ⟨⟨[("/a/b.html", .file "x")]⟩, some 4, 5, 0⟩ rfl
  exact ⟨t.1, t.2 4 rfl⟩
